import Mathlib

/-!
# promping: the stream loop of `main.go`

A shallow embedding of the per-line body of the `for buff.Scan()` loop in
`main` (lines 92-132 of `src/main.go`) together with the Go library calls it
makes on text (`strings.Fields`, `strings.FieldsFunc`, `strings.TrimRight`).

Conventions of the embedding:

* A Go string is a Lean `String`: a line is a sequence of Unicode code points
  (valid UTF-8 text).
* A Go run-time panic (slice index out of range) is the `error` case of
  `Except Panic`; it ends the process, so no state survives it.
* `strconv.ParseFloat(s, 64)` is library code. It is a parameter
  `ParseFloat : String → Option α` of everything below: `some v` when the
  returned error is nil, `none` otherwise. `α` stands for `float64`.
* A `prometheus.GaugeVec` with the single label `host` is a map from host to
  the value last `Set`, `none` when no child exists for the host.
* The local variables `fmin, favg, fmax, flost` of line 89 are written and read
  back inside one `if` statement only, so they are not part of the state.
-/

namespace Promping

/-! ## Go library functions on text -/

namespace unicode

/-- Go `unicode.IsSpace`: in Latin-1 the code points tab, line feed, vertical
tab, form feed, carriage return, space, U+0085 and U+00A0; above Latin-1 the
members of the `White_Space` table. -/
def IsSpace (c : Char) : Bool :=
  let r := c.toNat
  if r ≤ 0xFF then
    r == 0x09 || r == 0x0A || r == 0x0B || r == 0x0C || r == 0x0D
      || r == 0x20 || r == 0x85 || r == 0xA0
  else
    r == 0x1680 || (0x2000 ≤ r && r ≤ 0x200A) || r == 0x2028 || r == 0x2029
      || r == 0x202F || r == 0x205F || r == 0x3000

end unicode

namespace strings

/-- Scanner of `FieldsFunc`: `cur` is the field being read, most recent code
point first. A code point satisfying `f` closes the field; empty fields are
never emitted. -/
def fieldsFuncAux (f : Char → Bool) : List Char → List Char → List String
  | [], cur => if cur.isEmpty then [] else [String.mk cur.reverse]
  | c :: cs, cur =>
    if f c then
      if cur.isEmpty then fieldsFuncAux f cs []
      else String.mk cur.reverse :: fieldsFuncAux f cs []
    else fieldsFuncAux f cs (c :: cur)

/-- Go `strings.FieldsFunc`: splits `s` at each run of code points satisfying
`f` and returns the non-empty pieces in order. -/
def FieldsFunc (s : String) (f : Char → Bool) : List String :=
  fieldsFuncAux f s.data []

/-- Go `strings.Fields`: splits `s` around each run of white space. -/
def Fields (s : String) : List String :=
  FieldsFunc s unicode.IsSpace

/-- Go `strings.TrimRight`: removes every trailing code point contained in
`cutset`. -/
def TrimRight (s cutset : String) : String :=
  String.mk (s.data.reverse.dropWhile (fun c => cutset.data.contains c)).reverse

end strings

/-! ## Panics and slice indexing -/

/-- Run-time panics the loop body can raise. -/
inductive Panic where
  /-- Go: `index out of range [index] with length length`. -/
  | indexOutOfRange (index length : Nat)
  deriving DecidableEq, Repr

/-- Bounds-checked slice read `xs[i]`. -/
def index {β : Type} (xs : List β) (i : Nat) : Except Panic β :=
  match xs[i]? with
  | some x => .ok x
  | none => .error (.indexOutOfRange i xs.length)

/-! ## Gauges and loop state -/

/-- One gauge family labelled by host. -/
abbrev GaugeVec (α : Type) := String → Option α

/-- The call `g.WithLabelValues(host).Set(v)`. -/
def GaugeVec.Set {α : Type} (g : GaugeVec α) (host : String) (v : α) : GaugeVec α :=
  fun h => if h = host then some v else g h

/-- What the loop carries from one line to the next: the four text variables
of line 88, the four gauge families of lines 23-41 and the lines printed by
`log.Printf`. -/
structure State (α : Type) where
  min : String
  avg : String
  max : String
  lost : String
  rttMin : GaugeVec α
  rttAvg : GaugeVec α
  rttMax : GaugeVec α
  rttLost : GaugeVec α
  console : List String

/-- State on entry to the loop: `var min, avg, max, lost string` are empty and
no gauge has a child. -/
def State.init (α : Type) : State α :=
  { min := "", avg := "", max := "", lost := ""
    rttMin := fun _ => none, rttAvg := fun _ => none
    rttMax := fun _ => none, rttLost := fun _ => none
    console := [] }

/-! ## The loop body -/

/-- Source `splitSlash` (lines 51-53). -/
def splitSlash (c : Char) : Bool :=
  c == '/'

/-- Source `toFloat` (lines 135-137): `strconv.ParseFloat(s, 64)`. -/
def toFloat {α : Type} (ParseFloat : String → Option α) (s : String) : Option α :=
  ParseFloat s

/-- Lines 96-106, entered when `len(fields) > 1`: reads the host and the loss
triple, and the latency triple when `len(fields) > 5`. Returns the host and the
state with the text variables assigned. -/
def parseFields {α : Type} (s : State α) (fields : List String) :
    Except Panic (String × State α) := do
  let host ← index fields 0
  let data ← index fields 4
  let sep := strings.FieldsFunc data splitSlash
  let sep2 ← index sep 2
  let sep := sep.set 2 (strings.TrimRight sep2 "%,")
  let _ ← index sep 0
  let _ ← index sep 1
  let lost ← index sep 2
  let s := { s with lost := lost }
  if fields.length > 5 then
    let t ← index fields 7
    let sp := strings.FieldsFunc t splitSlash
    let min ← index sp 0
    let avg ← index sp 1
    let max ← index sp 2
    pure (host, { s with min := min, avg := avg, max := max })
  else
    pure (host, s)

/-- Lines 108-127, the metrics branch: each `continue` leaves the remaining
gauges of the line as they are. -/
def setGauges {α : Type} (ParseFloat : String → Option α) (s : State α) (host : String) :
    State α :=
  match toFloat ParseFloat s.min with
  | none => s
  | some fmin =>
    let s := { s with rttMin := s.rttMin.Set host fmin }
    match toFloat ParseFloat s.avg with
    | none => s
    | some favg =>
      let s := { s with rttAvg := s.rttAvg.Set host favg }
      match toFloat ParseFloat s.max with
      | none => s
      | some fmax =>
        let s := { s with rttMax := s.rttMax.Set host fmax }
        match toFloat ParseFloat s.lost with
        | none => s
        | some flost => { s with rttLost := s.rttLost.Set host flost }

/-- Line 129, the dry branch: the text handed to `log.Printf` (the logger puts
its time stamp in front of it). -/
def logLine {α : Type} (s : State α) (host : String) : String :=
  "host: " ++ host ++ ", min: " ++ s.min ++ ", avg: " ++ s.avg ++ ", max: " ++ s.max
    ++ ", lost: " ++ s.lost ++ "\n"

/-- One iteration of `for buff.Scan()` (lines 93-131) on the line `text`. -/
def step {α : Type} (ParseFloat : String → Option α) (dry : Bool) (s : State α)
    (text : String) : Except Panic (State α) :=
  let fields := strings.Fields text
  if fields.length > 1 then
    match parseFields s fields with
    | .error e => .error e
    | .ok (host, s) =>
      if !dry then .ok (setGauges ParseFloat s host)
      else .ok { s with console := s.console ++ [logLine s host] }
  else .ok s

/-- The loop over the lines the scanner yields, until the stream ends or an
iteration panics. -/
def run {α : Type} (ParseFloat : String → Option α) (dry : Bool) :
    State α → List String → Except Panic (State α)
  | s, [] => .ok s
  | s, text :: rest =>
    match step ParseFloat dry s text with
    | .error e => .error e
    | .ok s1 => run ParseFloat dry s1 rest

/-! ## A concrete coercion for evaluating the loop on examples -/

/-- Value of a run of decimal digits. -/
def digitsValue (ds : List Char) : Nat :=
  ds.foldl (fun n c => 10 * n + (c.toNat - 48)) 0

/-- A non-negative decimal number `mant / 10 ^ scale`, kept in lowest form
(`scale = 0` or `mant` not divisible by ten), so that equal numbers are equal
records. -/
structure Decimal where
  mant : Nat
  scale : Nat
  deriving DecidableEq, Repr

/-- Lowest form of `mant / 10 ^ scale`. -/
def Decimal.normalize (mant : Nat) : Nat → Decimal
  | 0 => { mant := mant, scale := 0 }
  | k + 1 =>
    if mant % 10 = 0 then Decimal.normalize (mant / 10) k
    else { mant := mant, scale := k + 1 }

/-- The part of `strconv.ParseFloat` on unsigned decimal literals `d`, `d.`,
`.d` and `d.d`: those succeed with the literal's value (exact here; the library
rounds it to the nearest `float64`). The empty text and text with any other
character are failures of this function. The library fails as well on the empty
text and on `xx` and `zz`, the non-numeric texts of the examples below; it
accepts signs, exponents, hexadecimal literals, infinities and NaN, which the
examples do not use. -/
def parseDecimal (s : String) : Option Decimal :=
  let ip := s.data.takeWhile Char.isDigit
  match s.data.dropWhile Char.isDigit with
  | [] => if ip.isEmpty then none else some (Decimal.normalize (digitsValue ip) 0)
  | c :: fp =>
    if c == '.' && fp.all Char.isDigit && !(ip.isEmpty && fp.isEmpty) then
      some (Decimal.normalize (digitsValue (ip ++ fp)) fp.length)
    else none

/-! ## Lemmas on the parts of the loop body -/

theorem index_of_getElem? {β : Type} {xs : List β} {i : Nat} {x : β}
    (h : xs[i]? = some x) : index xs i = .ok x := by
  simp [index, h]

theorem index_of_length_le {β : Type} {xs : List β} {i : Nat}
    (h : xs.length ≤ i) : index xs i = .error (.indexOutOfRange i xs.length) := by
  have hn : xs[i]? = none := List.getElem?_eq_none h
  simp [index, hn]

theorem lt_length_of_getElem? {β : Type} {xs : List β} {i : Nat} {x : β}
    (h : xs[i]? = some x) : i < xs.length := by
  by_contra hlt
  rw [List.getElem?_eq_none (Nat.le_of_not_lt hlt)] at h
  exact Option.noConfusion h

theorem getElem?_zero_of_getElem? {β : Type} {xs : List β} {i : Nat} {x : β}
    (h : xs[i]? = some x) : ∃ y, xs[0]? = some y := by
  cases xs with
  | nil => simp at h
  | cons y ys => exact ⟨y, by simp⟩

/-- What `TrimRight` removes: the input is the result followed by code points of
the cutset only, and the result does not end in a code point of the cutset. -/
theorem TrimRight_removes_trailing (s cutset : String) :
    ∃ removed : String, s = strings.TrimRight s cutset ++ removed ∧
      (∀ ch ∈ removed.data, ch ∈ cutset.data) ∧
      (∀ ch, (strings.TrimRight s cutset).data.getLast? = some ch → ch ∉ cutset.data) := by
  refine ⟨String.mk (s.data.reverse.takeWhile (fun c => cutset.data.contains c)).reverse,
    ?_, ?_, ?_⟩
  · apply String.ext
    simp only [strings.TrimRight, String.data_append]
    rw [← List.reverse_append, List.takeWhile_append_dropWhile, List.reverse_reverse]
  · intro ch hch
    simp only [List.mem_reverse] at hch
    have := List.mem_takeWhile_imp hch
    simpa using this
  · intro ch hch
    simp only [strings.TrimRight, List.getLast?_reverse] at hch
    have h := List.head?_dropWhile_not (fun c => cutset.data.contains c) s.data.reverse
    rw [hch] at h
    simpa using h

/-- A line without latency triple whose loss triple has three parts parses: only
`lost` is assigned. -/
theorem parseFields_loss_only {α : Type} (s : State α) (fields : List String)
    (host t4 x y p : String)
    (h0 : fields[0]? = some host) (h4 : fields[4]? = some t4)
    (hlen : fields.length ≤ 5)
    (hsep : strings.FieldsFunc t4 splitSlash = [x, y, p]) :
    parseFields s fields = .ok (host, { s with lost := strings.TrimRight p "%," }) := by
  have hn : ¬ 5 < fields.length := Nat.not_lt.mpr hlen
  simp [parseFields, index, h0, h4, hsep, hn, bind, Except.bind, pure, Except.pure]

/-- A line with both triples of three parts parses: all four texts are
assigned. -/
theorem parseFields_both {α : Type} (s : State α) (fields : List String)
    (host t4 t7 x y p a b c : String)
    (h0 : fields[0]? = some host) (h4 : fields[4]? = some t4) (h7 : fields[7]? = some t7)
    (hsep : strings.FieldsFunc t4 splitSlash = [x, y, p])
    (hsp : strings.FieldsFunc t7 splitSlash = [a, b, c]) :
    parseFields s fields =
      .ok (host, { s with lost := strings.TrimRight p "%,", min := a, avg := b, max := c }) := by
  have hl : 5 < fields.length := by
    have := lt_length_of_getElem? h7
    omega
  simp [parseFields, index, h0, h4, h7, hsep, hsp, hl, bind, Except.bind, pure, Except.pure]

/-- Parsing touches neither the gauges nor the console, and the host it returns
is token 0. -/
theorem parseFields_frame {α : Type} (s s1 : State α) (fields : List String) (host : String)
    (h : parseFields s fields = .ok (host, s1)) :
    fields[0]? = some host ∧ s1.rttMin = s.rttMin ∧ s1.rttAvg = s.rttAvg ∧
      s1.rttMax = s.rttMax ∧ s1.rttLost = s.rttLost ∧ s1.console = s.console := by
  unfold parseFields at h
  simp only [bind, Except.bind, pure, Except.pure] at h
  split at h
  · exact Except.noConfusion h
  · rename_i host0 hh
    have hh0 : fields[0]? = some host0 := by
      unfold index at hh
      split at hh
      · rename_i z hz
        cases hh
        exact hz
      · exact Except.noConfusion hh
    split at h
    · exact Except.noConfusion h
    · split at h
      · exact Except.noConfusion h
      · split at h
        · exact Except.noConfusion h
        · split at h
          · exact Except.noConfusion h
          · split at h
            · exact Except.noConfusion h
            · split at h
              · split at h
                · exact Except.noConfusion h
                · split at h
                  · exact Except.noConfusion h
                  · split at h
                    · exact Except.noConfusion h
                    · split at h
                      · exact Except.noConfusion h
                      · cases h
                        exact ⟨hh0, rfl, rfl, rfl, rfl, rfl⟩
              · cases h
                exact ⟨hh0, rfl, rfl, rfl, rfl, rfl⟩

/-- The metrics branch changes no text and prints nothing. -/
theorem setGauges_texts {α : Type} (pf : String → Option α) (s : State α) (host : String) :
    (setGauges pf s host).min = s.min ∧ (setGauges pf s host).avg = s.avg ∧
      (setGauges pf s host).max = s.max ∧ (setGauges pf s host).lost = s.lost ∧
      (setGauges pf s host).console = s.console := by
  unfold setGauges
  cases toFloat pf s.min <;> simp
  cases toFloat pf s.avg <;> simp
  cases toFloat pf s.max <;> simp
  cases toFloat pf s.lost <;> simp

/-- The gauges after the metrics branch, field by field. -/
theorem setGauges_gauges {α : Type} (pf : String → Option α) (s : State α) (host : String) :
    (setGauges pf s host).rttMin = (toFloat pf s.min).elim s.rttMin (s.rttMin.Set host) ∧
    (setGauges pf s host).rttAvg =
      (if (toFloat pf s.min).isSome
        then (toFloat pf s.avg).elim s.rttAvg (s.rttAvg.Set host) else s.rttAvg) ∧
    (setGauges pf s host).rttMax =
      (if (toFloat pf s.min).isSome ∧ (toFloat pf s.avg).isSome
        then (toFloat pf s.max).elim s.rttMax (s.rttMax.Set host) else s.rttMax) ∧
    (setGauges pf s host).rttLost =
      (if (toFloat pf s.min).isSome ∧ (toFloat pf s.avg).isSome ∧ (toFloat pf s.max).isSome
        then (toFloat pf s.lost).elim s.rttLost (s.rttLost.Set host) else s.rttLost) := by
  unfold setGauges
  cases toFloat pf s.min <;> simp
  cases toFloat pf s.avg <;> simp
  cases toFloat pf s.max <;> simp
  cases toFloat pf s.lost <;> simp

/-- A step on a line with at least two tokens, in terms of `parseFields`. -/
theorem step_of_parseFields {α : Type} (pf : String → Option α) (dry : Bool) (s s1 : State α)
    (text host : String) (hlen : 1 < (strings.Fields text).length)
    (h : parseFields s (strings.Fields text) = .ok (host, s1)) :
    step pf dry s text =
      .ok (if dry then { s1 with console := s1.console ++ [logLine s1 host] }
        else setGauges pf s1 host) := by
  unfold step
  simp only [gt_iff_lt, hlen, if_true, h]
  cases dry <;> simp

/-- A completed step on a line with at least two tokens went through
`parseFields`. -/
theorem parseFields_of_step {α : Type} (pf : String → Option α) (dry : Bool) (s s2 : State α)
    (text : String) (hlen : 1 < (strings.Fields text).length)
    (h : step pf dry s text = .ok s2) :
    ∃ host s1, parseFields s (strings.Fields text) = .ok (host, s1) := by
  unfold step at h
  simp only [gt_iff_lt, hlen, if_true] at h
  split at h
  · exact Except.noConfusion h
  · rename_i host s1 hp
    exact ⟨host, s1, hp⟩

/-! ## The claims -/

/-- C1: in metrics mode, a line with token 0 `host`, a token 4 that splits on
the slash into exactly three parts and a token 7 that splits into exactly three
parts, all of whose observations coerce (the third loss part after its trailing
percent signs and commas are removed), is processed without panic from any
prior state, and afterwards the four gauges of `host` hold the coerced
values. -/
theorem step_grammar_line_sets_gauges {α : Type} (ParseFloat : String → Option α)
    (s : State α) (line host t4 t7 x y p a b c : String) (vmin vavg vmax vlost : α)
    (h0 : (strings.Fields line)[0]? = some host)
    (h4 : (strings.Fields line)[4]? = some t4)
    (h7 : (strings.Fields line)[7]? = some t7)
    (hsep : strings.FieldsFunc t4 splitSlash = [x, y, p])
    (hsp : strings.FieldsFunc t7 splitSlash = [a, b, c])
    (hmin : toFloat ParseFloat a = some vmin)
    (havg : toFloat ParseFloat b = some vavg)
    (hmax : toFloat ParseFloat c = some vmax)
    (hlost : toFloat ParseFloat (strings.TrimRight p "%,") = some vlost) :
    ∃ s1, step ParseFloat false s line = .ok s1 ∧
      s1.rttMin host = some vmin ∧ s1.rttAvg host = some vavg ∧
      s1.rttMax host = some vmax ∧ s1.rttLost host = some vlost := by
  have hlen : 1 < (strings.Fields line).length := by
    have := lt_length_of_getElem? h7
    omega
  have hp := parseFields_both s (strings.Fields line) host t4 t7 x y p a b c h0 h4 h7 hsep hsp
  refine ⟨_, step_of_parseFields ParseFloat false s _ line host hlen hp, ?_⟩
  have hg := setGauges_gauges ParseFloat
    { s with lost := strings.TrimRight p "%,", min := a, avg := b, max := c } host
  simp only [hmin, havg, hmax, hlost, Option.isSome_some, and_self, if_true, Option.elim] at hg
  obtain ⟨g1, g2, g3, g4⟩ := hg
  simp [g1, g2, g3, g4, GaugeVec.Set]

/-- Witness of C1 on a line in the format of the probing tool. -/
theorem step_grammar_line_sets_gauges_witness :
    ∃ s1, step parseDecimal false (State.init Decimal)
        "host1 : xmt/rcv/%loss = 5/5/0%, min/avg/max = 1.5/2.0/2.25" = .ok s1 ∧
      s1.rttMin "host1" = some ⟨15, 1⟩ ∧ s1.rttAvg "host1" = some ⟨2, 0⟩ ∧
      s1.rttMax "host1" = some ⟨225, 2⟩ ∧ s1.rttLost "host1" = some ⟨0, 0⟩ :=
  step_grammar_line_sets_gauges parseDecimal (State.init Decimal)
    "host1 : xmt/rcv/%loss = 5/5/0%, min/avg/max = 1.5/2.0/2.25" "host1" "5/5/0%,"
    "1.5/2.0/2.25" "5" "5" "0%," "1.5" "2.0" "2.25" ⟨15, 1⟩ ⟨2, 0⟩ ⟨225, 2⟩ ⟨0, 0⟩
    (by decide) (by decide) (by decide) (by decide) (by decide)
    (by decide) (by decide) (by decide) (by decide)

/-- C2 (the code panics): on the four-token line of end-to-end scenario 3 the
guard `len(fields) > 1` passes and the read `fields[4]` panics with index 4 out
of range for length 4, in either mode and from every state. -/
theorem step_four_token_line_panics {α : Type} (ParseFloat : String → Option α)
    (dry : Bool) (s : State α) :
    step ParseFloat dry s "host2 xx yy 12%," = .error (.indexOutOfRange 4 4) :=
  rfl

/-- C3 as stated fails: on a line whose min text `xx` does not coerce while its
lost text `0` does, the lost gauge of the host is not set (nor is the avg gauge,
whose text `2.0` coerces). -/
theorem step_bad_min_blocks_lost :
    ∃ s1, step parseDecimal false (State.init Decimal)
        "host1 : xmt/rcv/%loss = 5/5/0%, min/avg/max = xx/2.0/2.5" = .ok s1 ∧
      s1.min = "xx" ∧ toFloat parseDecimal s1.min = none ∧
      s1.avg = "2.0" ∧ toFloat parseDecimal s1.avg = some ⟨2, 0⟩ ∧
      s1.lost = "0" ∧ toFloat parseDecimal s1.lost = some ⟨0, 0⟩ ∧
      s1.rttAvg "host1" = none ∧ s1.rttLost "host1" = none :=
  ⟨_, rfl, by decide, by decide, by decide, by decide, by decide, by decide, by decide,
    by decide⟩

/-- C3 amended: in metrics mode, on a line that supplies both triples (token 4
and token 7 each split into three parts) the step completes, and each gauge of
the host holds its field's coerced value afterwards (the family being the prior
one overwritten at the host) when that field's text and the texts of all fields
before it in the order min, avg, max, lost coerce, and keeps its prior content
when one of them fails. -/
theorem step_both_triples_gauges_in_order {α : Type} (ParseFloat : String → Option α)
    (s : State α) (line host t4 t7 x y p a b c : String)
    (h0 : (strings.Fields line)[0]? = some host)
    (h4 : (strings.Fields line)[4]? = some t4)
    (h7 : (strings.Fields line)[7]? = some t7)
    (hsep : strings.FieldsFunc t4 splitSlash = [x, y, p])
    (hsp : strings.FieldsFunc t7 splitSlash = [a, b, c]) :
    ∃ s1, step ParseFloat false s line = .ok s1 ∧
      (∀ v, toFloat ParseFloat a = some v →
        s1.rttMin host = some v ∧ s1.rttMin = s.rttMin.Set host v) ∧
      (toFloat ParseFloat a = none → s1.rttMin = s.rttMin) ∧
      (∀ v, (toFloat ParseFloat a).isSome → toFloat ParseFloat b = some v →
        s1.rttAvg host = some v ∧ s1.rttAvg = s.rttAvg.Set host v) ∧
      (toFloat ParseFloat a = none ∨ toFloat ParseFloat b = none → s1.rttAvg = s.rttAvg) ∧
      (∀ v, (toFloat ParseFloat a).isSome → (toFloat ParseFloat b).isSome →
        toFloat ParseFloat c = some v →
        s1.rttMax host = some v ∧ s1.rttMax = s.rttMax.Set host v) ∧
      (toFloat ParseFloat a = none ∨ toFloat ParseFloat b = none ∨
        toFloat ParseFloat c = none → s1.rttMax = s.rttMax) ∧
      (∀ v, (toFloat ParseFloat a).isSome → (toFloat ParseFloat b).isSome →
        (toFloat ParseFloat c).isSome →
        toFloat ParseFloat (strings.TrimRight p "%,") = some v →
        s1.rttLost host = some v ∧ s1.rttLost = s.rttLost.Set host v) ∧
      (toFloat ParseFloat a = none ∨ toFloat ParseFloat b = none ∨
        toFloat ParseFloat c = none ∨
        toFloat ParseFloat (strings.TrimRight p "%,") = none → s1.rttLost = s.rttLost) := by
  have hlen : 1 < (strings.Fields line).length := by
    have := lt_length_of_getElem? h7
    omega
  have hp := parseFields_both s (strings.Fields line) host t4 t7 x y p a b c h0 h4 h7 hsep hsp
  refine ⟨_, step_of_parseFields ParseFloat false s _ line host hlen hp, ?_⟩
  have hg := setGauges_gauges ParseFloat
    { s with lost := strings.TrimRight p "%,", min := a, avg := b, max := c } host
  obtain ⟨g1, g2, g3, g4⟩ := hg
  simp only [Bool.false_eq_true, if_false]
  rw [g1, g2, g3, g4]
  cases toFloat ParseFloat a <;> cases toFloat ParseFloat b <;>
    cases toFloat ParseFloat c <;>
    cases toFloat ParseFloat (strings.TrimRight p "%,") <;> simp [GaugeVec.Set]

/-- Witness of amended C3: from a state whose four gauges of `host1` hold 7, the
avg text `zz` fails, so the min gauge of `host1` holds 1.5 afterwards and the
avg, max and lost gauges still hold 7, although `2.5` and `0` coerce. -/
theorem step_both_triples_gauges_in_order_witness :
    ∃ s1, step parseDecimal false
        { State.init Decimal with
          rttMin := fun _ => some ⟨7, 0⟩, rttAvg := fun _ => some ⟨7, 0⟩
          rttMax := fun _ => some ⟨7, 0⟩, rttLost := fun _ => some ⟨7, 0⟩ }
        "host1 : xmt/rcv/%loss = 5/5/0%, min/avg/max = 1.5/zz/2.5" = .ok s1 ∧
      s1.rttMin "host1" = some ⟨15, 1⟩ ∧
      s1.rttAvg "host1" = some ⟨7, 0⟩ ∧
      s1.rttMax "host1" = some ⟨7, 0⟩ ∧
      s1.rttLost "host1" = some ⟨7, 0⟩ ∧
      toFloat parseDecimal "2.5" = some ⟨25, 1⟩ ∧
      toFloat parseDecimal (strings.TrimRight "0%," "%,") = some ⟨0, 0⟩ := by
  obtain ⟨s1, hs, m1, _, _, a2, _, x2, _, l2⟩ :=
    step_both_triples_gauges_in_order parseDecimal
      { State.init Decimal with
        rttMin := fun _ => some ⟨7, 0⟩, rttAvg := fun _ => some ⟨7, 0⟩
        rttMax := fun _ => some ⟨7, 0⟩, rttLost := fun _ => some ⟨7, 0⟩ }
      "host1 : xmt/rcv/%loss = 5/5/0%, min/avg/max = 1.5/zz/2.5" "host1" "5/5/0%,"
      "1.5/zz/2.5" "5" "5" "0%," "1.5" "zz" "2.5"
      (by decide) (by decide) (by decide) (by decide) (by decide)
  exact ⟨s1, hs, (m1 _ (by decide)).1,
    congrFun (a2 (Or.inr (by decide))) "host1",
    congrFun (x2 (Or.inr (Or.inl (by decide)))) "host1",
    congrFun (l2 (Or.inr (Or.inl (by decide)))) "host1", by decide, by decide⟩

/-- C4 (the code misses it): from the initial state the line of end-to-end
scenario 1 parses, its lost text is `0`, but the carried min text is still
empty; whenever the coercion rejects the empty text, as `strconv.ParseFloat`
does, the first `continue` is taken and no lost gauge exists for `host1`
afterwards. -/
theorem step_loss_only_from_init_sets_nothing {α : Type} (ParseFloat : String → Option α)
    (hempty : ParseFloat "" = none) :
    ∃ s1, step ParseFloat false (State.init α) "host1 5 5 0.0% 0/5/0%" = .ok s1 ∧
      s1.lost = "0" ∧ s1.min = "" ∧ s1.rttLost "host1" = none := by
  have hp : parseFields (State.init α) (strings.Fields "host1 5 5 0.0% 0/5/0%") =
      .ok ("host1", { State.init α with lost := "0" }) := rfl
  refine ⟨_, step_of_parseFields ParseFloat false _ _ _ "host1" (by decide) hp, ?_⟩
  have hm : toFloat ParseFloat "" = none := hempty
  simp [setGauges, hm, State.init]

/-- Scenario 1 evaluated with the decimal coercion: the lost text `0` coerces
to zero and yet the lost gauge of `host1` stays absent. -/
theorem step_loss_only_from_init_sets_nothing_witness :
    parseDecimal "0" = some ⟨0, 0⟩ ∧
    ∃ s1, step parseDecimal false (State.init Decimal) "host1 5 5 0.0% 0/5/0%" = .ok s1 ∧
      s1.lost = "0" ∧ s1.min = "" ∧ s1.rttLost "host1" = none :=
  ⟨by decide, step_loss_only_from_init_sets_nothing parseDecimal (by decide)⟩

/-- C5 (the code panics): when token 4 splits on the slash into fewer than three
parts the read `sep[2]` panics, and when token 4 has three parts but token 7
splits into fewer than three, the first missing one of `sp[0]`, `sp[1]`, `sp[2]`
panics; in either mode and from every state the step yields no state at all. -/
theorem step_short_triple_panics {α : Type} (ParseFloat : String → Option α) (dry : Bool)
    (s : State α) (line t4 : String)
    (h4 : (strings.Fields line)[4]? = some t4) :
    ((strings.FieldsFunc t4 splitSlash).length < 3 →
      step ParseFloat dry s line =
        .error (.indexOutOfRange 2 (strings.FieldsFunc t4 splitSlash).length)) ∧
    (∀ t7 x y p, (strings.Fields line)[7]? = some t7 →
      strings.FieldsFunc t4 splitSlash = [x, y, p] →
      (strings.FieldsFunc t7 splitSlash).length < 3 →
      step ParseFloat dry s line =
        .error (.indexOutOfRange (strings.FieldsFunc t7 splitSlash).length
          (strings.FieldsFunc t7 splitSlash).length)) := by
  have hl4 := lt_length_of_getElem? h4
  obtain ⟨host, h0⟩ := getElem?_zero_of_getElem? h4
  have hlen : 1 < (strings.Fields line).length := by omega
  constructor
  · intro hshort
    have hi : index (strings.FieldsFunc t4 splitSlash) 2 =
        .error (.indexOutOfRange 2 (strings.FieldsFunc t4 splitSlash).length) :=
      index_of_length_le (by omega)
    have hp : parseFields s (strings.Fields line) =
        .error (.indexOutOfRange 2 (strings.FieldsFunc t4 splitSlash).length) := by
      simp [parseFields, index_of_getElem? h0, index_of_getElem? h4, hi, bind, Except.bind]
    unfold step
    simp only [gt_iff_lt, hlen, if_true, hp]
  · intro t7 x y p h7 hsep hshort
    have hl7 := lt_length_of_getElem? h7
    have hl5 : 5 < (strings.Fields line).length := by omega
    have hp : parseFields s (strings.Fields line) =
        .error (.indexOutOfRange (strings.FieldsFunc t7 splitSlash).length
          (strings.FieldsFunc t7 splitSlash).length) := by
      generalize hsp : strings.FieldsFunc t7 splitSlash = sp at hshort ⊢
      match sp, hshort with
      | [], _ =>
        simp [parseFields, index, h0, h4, h7, hsep, hsp, hl5, bind, Except.bind]
      | [u], _ =>
        simp [parseFields, index, h0, h4, h7, hsep, hsp, hl5, bind, Except.bind]
      | [u, v], _ =>
        simp [parseFields, index, h0, h4, h7, hsep, hsp, hl5, bind, Except.bind]
      | _ :: _ :: _ :: _, hlt => exact absurd hlt (by simp)
    unfold step
    simp only [gt_iff_lt, hlen, if_true, hp]

/-- Witness of C5: a loss token with two parts and a latency token with two
parts, each on a line of the tool's shape. -/
theorem step_short_triple_panics_witness :
    step parseDecimal false (State.init Decimal) "host1 : xmt/rcv/%loss = 5/5" =
      .error (.indexOutOfRange 2 2) ∧
    step parseDecimal false (State.init Decimal)
        "host1 : xmt/rcv/%loss = 5/5/0%, min/avg/max = 1.5/2.0" =
      .error (.indexOutOfRange 2 2) :=
  ⟨(step_short_triple_panics parseDecimal false (State.init Decimal)
      "host1 : xmt/rcv/%loss = 5/5" "5/5" (by decide)).1 (by decide),
    (step_short_triple_panics parseDecimal false (State.init Decimal)
      "host1 : xmt/rcv/%loss = 5/5/0%, min/avg/max = 1.5/2.0" "5/5/0%," (by decide)).2
      "1.5/2.0" "5" "5" "0%," (by decide) (by decide) (by decide)⟩

/-- C6: in either mode, on a line with fewer than six tokens whose token 4
splits on the slash into three parts the step completes; the carried lost text
becomes the third part with its trailing percent signs and commas removed (the
third part is the new text followed by percent signs and commas only, and the
new text ends in neither), and the carried min, avg and max texts are the very
texts held before the step. -/
theorem step_loss_only_carries_latency_texts {α : Type} (ParseFloat : String → Option α)
    (dry : Bool) (s : State α) (line t4 x y p : String)
    (hlen : (strings.Fields line).length < 6)
    (h4 : (strings.Fields line)[4]? = some t4)
    (hsep : strings.FieldsFunc t4 splitSlash = [x, y, p]) :
    ∃ s1, step ParseFloat dry s line = .ok s1 ∧
      s1.lost = strings.TrimRight p "%," ∧
      (∃ removed : String, p = s1.lost ++ removed ∧
        (∀ ch ∈ removed.data, ch = '%' ∨ ch = ',') ∧
        (∀ ch, s1.lost.data.getLast? = some ch → ch ≠ '%' ∧ ch ≠ ',')) ∧
      s1.min = s.min ∧ s1.avg = s.avg ∧ s1.max = s.max := by
  have hl4 := lt_length_of_getElem? h4
  obtain ⟨host, h0⟩ := getElem?_zero_of_getElem? h4
  have hp := parseFields_loss_only s (strings.Fields line) host t4 x y p h0 h4
    (by omega) hsep
  refine ⟨_, step_of_parseFields ParseFloat dry s _ line host (by omega) hp, ?_⟩
  obtain ⟨removed, hr1, hr2, hr3⟩ := TrimRight_removes_trailing p "%,"
  have hcut : ∀ ch : Char, ch ∈ "%,".data ↔ ch = '%' ∨ ch = ',' := by
    intro ch
    show ch ∈ ['%', ','] ↔ _
    simp
  have hchar : ∃ removed : String, p = strings.TrimRight p "%," ++ removed ∧
      (∀ ch ∈ removed.data, ch = '%' ∨ ch = ',') ∧
      (∀ ch, (strings.TrimRight p "%,").data.getLast? = some ch → ch ≠ '%' ∧ ch ≠ ',') :=
    ⟨removed, hr1, fun ch hch => (hcut ch).1 (hr2 ch hch),
      fun ch hch => not_or.1 (fun hor => hr3 ch hch ((hcut ch).2 hor))⟩
  cases dry
  · obtain ⟨e1, e2, e3, e4, _⟩ := setGauges_texts ParseFloat
      { s with lost := strings.TrimRight p "%," } host
    simp only [Bool.false_eq_true, if_false]
    rw [e1, e2, e3, e4]
    exact ⟨rfl, hchar, rfl, rfl, rfl⟩
  · exact ⟨rfl, hchar, rfl, rfl, rfl⟩

/-- Witness of C6: after a line with a latency triple, a loss-only line with
lost part `100%,%` keeps the three latency texts and stores `100`, the part
without the three trailing characters. -/
theorem step_loss_only_carries_latency_texts_witness :
    ∃ s1, step parseDecimal false
        { State.init Decimal with min := "1.5%", avg := "2.0,", max := "2.5", lost := "0" }
        "host1 : xmt/rcv/%loss = 5/0/100%,%" = .ok s1 ∧
      s1.lost = "100" ∧
      (∃ removed : String, "100%,%" = s1.lost ++ removed ∧
        (∀ ch ∈ removed.data, ch = '%' ∨ ch = ',') ∧
        (∀ ch, s1.lost.data.getLast? = some ch → ch ≠ '%' ∧ ch ≠ ',')) ∧
      s1.min = "1.5%" ∧ s1.avg = "2.0," ∧ s1.max = "2.5" := by
  obtain ⟨s1, hs, hl, hr, e1, e2, e3⟩ :=
    step_loss_only_carries_latency_texts parseDecimal false
      { State.init Decimal with min := "1.5%", avg := "2.0,", max := "2.5", lost := "0" }
      "host1 : xmt/rcv/%loss = 5/0/100%,%" "5/0/100%,%" "5" "0" "100%,%"
      (by decide) (by decide) (by decide)
  have ht : strings.TrimRight "100%,%" "%," = "100" := by decide
  exact ⟨s1, hs, hl.trans ht, hr, e1, e2, e3⟩

/-- C7: whenever a step in dry mode completes, the four gauge families are the
ones held before the step; the console gains at most one line. -/
theorem step_dry_keeps_gauges {α : Type} (ParseFloat : String → Option α)
    (s s1 : State α) (line : String)
    (hstep : step ParseFloat true s line = .ok s1) :
    s1.rttMin = s.rttMin ∧ s1.rttAvg = s.rttAvg ∧ s1.rttMax = s.rttMax ∧
      s1.rttLost = s.rttLost ∧
      (s1.console = s.console ∨ ∃ msg, s1.console = s.console ++ [msg]) := by
  by_cases hlen : 1 < (strings.Fields line).length
  · obtain ⟨host, s0, hp⟩ := parseFields_of_step ParseFloat true s s1 line hlen hstep
    rw [step_of_parseFields ParseFloat true s s0 line host hlen hp] at hstep
    obtain ⟨_, g1, g2, g3, g4, hc⟩ := parseFields_frame s s0 (strings.Fields line) host hp
    cases hstep
    exact ⟨g1, g2, g3, g4, Or.inr ⟨logLine s0 host, by simp [hc]⟩⟩
  · unfold step at hstep
    simp only [gt_iff_lt, hlen, if_false] at hstep
    cases hstep
    exact ⟨rfl, rfl, rfl, rfl, Or.inl rfl⟩

/-- Witness of C7: a dry step on a full line from a state whose gauges hold
values. -/
theorem step_dry_keeps_gauges_witness :
    ∃ s1, step parseDecimal true
        { State.init Decimal with rttMin := fun _ => some ⟨7, 0⟩ }
        "host1 : xmt/rcv/%loss = 5/5/0%, min/avg/max = 1.5/2.0/2.5" = .ok s1 ∧
      s1.min = "1.5" ∧ s1.rttMin "host1" = some ⟨7, 0⟩ ∧ s1.rttLost "host1" = none ∧
      s1.console = ["host: host1, min: 1.5, avg: 2.0, max: 2.5, lost: 0\n"] := by
  refine ⟨_, rfl, by decide, ?_, ?_, by decide⟩
  · exact congrFun (step_dry_keeps_gauges parseDecimal
      { State.init Decimal with rttMin := fun _ => some ⟨7, 0⟩ } _
      "host1 : xmt/rcv/%loss = 5/5/0%, min/avg/max = 1.5/2.0/2.5" rfl).1 "host1"
  · exact congrFun (step_dry_keeps_gauges parseDecimal
      { State.init Decimal with rttMin := fun _ => some ⟨7, 0⟩ } _
      "host1 : xmt/rcv/%loss = 5/5/0%, min/avg/max = 1.5/2.0/2.5" rfl).2.2.2.1 "host1"

/-- C8: in either mode, on a line with fewer than two tokens the step completes
and returns the state it was given: texts, gauges and console. -/
theorem step_fewer_than_two_tokens_is_identity {α : Type} (ParseFloat : String → Option α)
    (dry : Bool) (s : State α) (line : String)
    (hlen : (strings.Fields line).length < 2) :
    step ParseFloat dry s line = .ok s := by
  have hn : ¬ 1 < (strings.Fields line).length := by omega
  unfold step
  simp only [gt_iff_lt, hn, if_false]

/-- Witness of C8: the empty line, a line of blanks and tabs, and a one-token
line. -/
theorem step_fewer_than_two_tokens_is_identity_witness :
    step parseDecimal false (State.init Decimal) "" = .ok (State.init Decimal) ∧
    step parseDecimal true (State.init Decimal) "  \t " = .ok (State.init Decimal) ∧
    step parseDecimal false (State.init Decimal) "[1596629864.274]" =
      .ok (State.init Decimal) :=
  ⟨step_fewer_than_two_tokens_is_identity parseDecimal false _ "" (by decide),
    step_fewer_than_two_tokens_is_identity parseDecimal true _ "  \t " (by decide),
    step_fewer_than_two_tokens_is_identity parseDecimal false _ "[1596629864.274]"
      (by decide)⟩

/-- C9: in metrics mode, from any state, a line for host `A` with both triples
(latency parts `a`, `b`, `c`) followed by a five-token line for host `B` with a
loss triple only, all observations coercing, completes and leaves the min, avg
and max gauges of `B` at the coerced `a`, `b`, `c` of the line for `A` and the
lost gauge of `B` at its own coerced loss; `A` and `B` may differ. -/
theorem run_latency_texts_shared_across_hosts {α : Type} (ParseFloat : String → Option α)
    (s : State α) (lineA lineB A B t4 t7 u4 x y p x2 y2 q a b c : String)
    (va vb vc vl1 vl2 : α)
    (hA0 : (strings.Fields lineA)[0]? = some A)
    (hA4 : (strings.Fields lineA)[4]? = some t4)
    (hA7 : (strings.Fields lineA)[7]? = some t7)
    (hAsep : strings.FieldsFunc t4 splitSlash = [x, y, p])
    (hAsp : strings.FieldsFunc t7 splitSlash = [a, b, c])
    (hB0 : (strings.Fields lineB)[0]? = some B)
    (hB4 : (strings.Fields lineB)[4]? = some u4)
    (hBlen : (strings.Fields lineB).length = 5)
    (hBsep : strings.FieldsFunc u4 splitSlash = [x2, y2, q])
    (ha : toFloat ParseFloat a = some va)
    (hb : toFloat ParseFloat b = some vb)
    (hc : toFloat ParseFloat c = some vc)
    (_hl1 : toFloat ParseFloat (strings.TrimRight p "%,") = some vl1)
    (hl2 : toFloat ParseFloat (strings.TrimRight q "%,") = some vl2) :
    ∃ s2, run ParseFloat false s [lineA, lineB] = .ok s2 ∧
      s2.rttMin B = some va ∧ s2.rttAvg B = some vb ∧ s2.rttMax B = some vc ∧
      s2.rttLost B = some vl2 := by
  have hlenA : 1 < (strings.Fields lineA).length := by
    have := lt_length_of_getElem? hA7
    omega
  have hpA := parseFields_both s (strings.Fields lineA) A t4 t7 x y p a b c
    hA0 hA4 hA7 hAsep hAsp
  have hsA := step_of_parseFields ParseFloat false s _ lineA A hlenA hpA
  simp only [Bool.false_eq_true, if_false] at hsA
  obtain ⟨e1, e2, e3, _, _⟩ := setGauges_texts ParseFloat
    { s with lost := strings.TrimRight p "%,", min := a, avg := b, max := c } A
  generalize setGauges ParseFloat
    { s with lost := strings.TrimRight p "%,", min := a, avg := b, max := c } A = sA
    at hsA e1 e2 e3
  obtain ⟨m0, a0, x0, l0, r1, r2, r3, r4, con⟩ := sA
  simp only at e1 e2 e3
  subst e1 e2 e3
  have hpB := parseFields_loss_only ⟨m0, a0, x0, l0, r1, r2, r3, r4, con⟩
    (strings.Fields lineB) B u4 x2 y2 q hB0 hB4 (by omega) hBsep
  have hsB := step_of_parseFields ParseFloat false _ _ lineB B (by omega) hpB
  simp only [Bool.false_eq_true, if_false] at hsB
  have hrun : run ParseFloat false s [lineA, lineB] =
      .ok (setGauges ParseFloat
        ⟨m0, a0, x0, strings.TrimRight q "%,", r1, r2, r3, r4, con⟩ B) := by
    simp only [run, hsA, hsB]
  refine ⟨_, hrun, ?_⟩
  obtain ⟨g1, g2, g3, g4⟩ := setGauges_gauges ParseFloat
    ⟨m0, a0, x0, strings.TrimRight q "%,", r1, r2, r3, r4, con⟩ B
  simp only [ha, hb, hc, hl2, Option.isSome_some, and_self, if_true,
    Option.elim] at g1 g2 g3 g4
  simp [g1, g2, g3, g4, GaugeVec.Set]

/-- Witness of C9: host `up` answers, host `down` does not; the gauges of
`down` receive the latencies of `up`. -/
theorem run_latency_texts_shared_across_hosts_witness :
    ∃ s2, run parseDecimal false (State.init Decimal)
        ["up : xmt/rcv/%loss = 5/5/0%, min/avg/max = 1.5/2.0/2.5",
          "down : xmt/rcv/%loss = 5/0/100%"] = .ok s2 ∧
      s2.rttMin "down" = some ⟨15, 1⟩ ∧ s2.rttAvg "down" = some ⟨2, 0⟩ ∧
      s2.rttMax "down" = some ⟨25, 1⟩ ∧ s2.rttLost "down" = some ⟨100, 0⟩ :=
  run_latency_texts_shared_across_hosts parseDecimal (State.init Decimal)
    "up : xmt/rcv/%loss = 5/5/0%, min/avg/max = 1.5/2.0/2.5"
    "down : xmt/rcv/%loss = 5/0/100%" "up" "down" "5/5/0%," "1.5/2.0/2.5" "5/0/100%"
    "5" "5" "0%," "5" "0" "100%" "1.5" "2.0" "2.5" ⟨15, 1⟩ ⟨2, 0⟩ ⟨25, 1⟩ ⟨0, 0⟩ ⟨100, 0⟩
    (by decide) (by decide) (by decide) (by decide) (by decide) (by decide) (by decide)
    (by decide) (by decide) (by decide) (by decide) (by decide) (by decide) (by decide)

/-- C10: when a step in metrics mode completes on a line with at least two
tokens and token 0 `host`, each gauge family afterwards is the prior family with
`host` overwritten by the coerced text when that text and the texts of all
fields before it in the order min, avg, max, lost coerce, and is the prior
family otherwise; so the lost gauge is written exactly when all four texts
coerce, and no gauge of another host changes. The texts are the ones carried
after the line is parsed. -/
theorem step_metrics_writes_gauges_up_to_first_failure {α : Type}
    (ParseFloat : String → Option α) (s s1 : State α) (line host : String)
    (hlen : 1 < (strings.Fields line).length)
    (h0 : (strings.Fields line)[0]? = some host)
    (hstep : step ParseFloat false s line = .ok s1) :
    s1.rttMin = (toFloat ParseFloat s1.min).elim s.rttMin (s.rttMin.Set host) ∧
    s1.rttAvg =
      (if (toFloat ParseFloat s1.min).isSome
        then (toFloat ParseFloat s1.avg).elim s.rttAvg (s.rttAvg.Set host)
        else s.rttAvg) ∧
    s1.rttMax =
      (if (toFloat ParseFloat s1.min).isSome ∧ (toFloat ParseFloat s1.avg).isSome
        then (toFloat ParseFloat s1.max).elim s.rttMax (s.rttMax.Set host)
        else s.rttMax) ∧
    s1.rttLost =
      (if (toFloat ParseFloat s1.min).isSome ∧ (toFloat ParseFloat s1.avg).isSome ∧
          (toFloat ParseFloat s1.max).isSome
        then (toFloat ParseFloat s1.lost).elim s.rttLost (s.rttLost.Set host)
        else s.rttLost) ∧
    (∀ other, other ≠ host →
      s1.rttMin other = s.rttMin other ∧ s1.rttAvg other = s.rttAvg other ∧
      s1.rttMax other = s.rttMax other ∧ s1.rttLost other = s.rttLost other) := by
  obtain ⟨host0, s0, hp⟩ := parseFields_of_step ParseFloat false s s1 line hlen hstep
  rw [step_of_parseFields ParseFloat false s s0 line host0 hlen hp] at hstep
  obtain ⟨hh, f1, f2, f3, f4, _⟩ := parseFields_frame s s0 (strings.Fields line) host0 hp
  have hhost : host0 = host := by
    rw [hh] at h0
    exact Option.some.inj h0
  subst hhost
  simp only [Bool.false_eq_true, if_false] at hstep
  cases hstep
  obtain ⟨e1, e2, e3, e4, _⟩ := setGauges_texts ParseFloat s0 host0
  obtain ⟨g1, g2, g3, g4⟩ := setGauges_gauges ParseFloat s0 host0
  rw [e1, e2, e3, e4, g1, g2, g3, g4, f1, f2, f3, f4]
  refine ⟨rfl, rfl, rfl, rfl, ?_⟩
  intro other hne
  cases toFloat ParseFloat s0.min <;> cases toFloat ParseFloat s0.avg <;>
    cases toFloat ParseFloat s0.max <;> cases toFloat ParseFloat s0.lost <;>
    simp [GaugeVec.Set, hne]

/-- Witness of C10: the max text `zz` fails, so min and avg are written for
`host1` and max and lost are not, although the lost text `0` coerces. -/
theorem step_metrics_writes_gauges_up_to_first_failure_witness :
    ∃ s1, step parseDecimal false (State.init Decimal)
        "host1 : xmt/rcv/%loss = 5/5/0%, min/avg/max = 1.5/2.0/zz" = .ok s1 ∧
      s1.rttMin "host1" = some ⟨15, 1⟩ ∧ s1.rttAvg "host1" = some ⟨2, 0⟩ ∧
      s1.rttMax "host1" = none ∧ s1.rttLost "host1" = none ∧
      toFloat parseDecimal s1.lost = some ⟨0, 0⟩ ∧
      s1.rttMin "host2" = none := by
  have h := step_metrics_writes_gauges_up_to_first_failure parseDecimal
    (State.init Decimal) _ "host1 : xmt/rcv/%loss = 5/5/0%, min/avg/max = 1.5/2.0/zz"
    "host1" (by decide) (by decide) rfl
  exact ⟨_, rfl, by decide, by decide, by decide, by decide, by decide,
    (h.2.2.2.2 "host2" (by decide)).1⟩

end Promping
